import Mathlib

/-
Verification of the docsee repository traversal and statistics engine
(src/docsee.ts) against its specification.

The TypeScript source is shallowly embedded:

* the document tree (a JS Record whose values are either a string URL,
  null, or a nested record) becomes the inductive type Val / lists of
  (name, Val) pairs;
* the file-body fetch effect (fetch + response.ok + response.text)
  becomes an explicit function from URL to Option String: some body on
  a successful fetch, none when the fetch throws or the response is not ok;
* the directory-listing API (fetchRepository, which throws an Error with
  a message on a non-ok response) becomes a function from path to
  Except String (List GitHubItem), and the unbounded recursion of
  traverseRepository is made total with an explicit fuel parameter;
* JS strings are modelled as Lean strings; String.prototype.length (the
  number of UTF-16 code units) is modelled by jsLength, and the regex
  class \s together with String.prototype.trim by jsWhitespace / jsTrim.
-/

/-- Kind of a GitHub contents-API entry: the source interface field
type: "file" | "dir" (src/docsee.ts line 7). -/
inductive ItemType where
  | file : ItemType
  | dir : ItemType
deriving Repr, DecidableEq

/-- One element of a directory listing, the GitHub interface of
src/docsee.ts lines 4-10 (the unused url field is omitted). -/
structure GitHubItem where
  name : String
  path : String
  type : ItemType
  download_url : Option String
deriving Repr, DecidableEq

/-- A value stored in the document tree built by traverseRepository:
either a leaf holding item.download_url (a string or null, hence
Option String), or a nested record (src/docsee.ts lines 50, 58).
A whole tree is a List (String × Val), the entries of the JS record
in insertion order. -/
inductive Val where
  | leaf : Option String → Val
  | dir : List (String × Val) → Val
deriving Repr

/-- The Analysis record of src/docsee.ts lines 12-17. -/
structure Analysis where
  folderCount : Nat
  fileCount : Nat
  wordCount : Nat
  totalSize : Nat
deriving Repr, DecidableEq

/-- Fieldwise addition of statistics; models the four += merges of
src/docsee.ts lines 116-119 (and the += updates in the file branch). -/
def addA (a b : Analysis) : Analysis :=
  ⟨a.folderCount + b.folderCount, a.fileCount + b.fileCount,
   a.wordCount + b.wordCount, a.totalSize + b.totalSize⟩

/-- The character class matched by the JS regex \s (ECMAScript WhiteSpace
plus LineTerminator), which is also exactly the set stripped by
String.prototype.trim. -/
def jsWhitespace (c : Char) : Bool :=
  c == ' ' || c == '\t' || c == '\n' || c.val == 0x0B || c.val == 0x0C || c == '\r' ||
  c.val == 0x00A0 || c.val == 0x1680 ||
  (0x2000 ≤ c.val && c.val ≤ 0x200A) ||
  c.val == 0x2028 || c.val == 0x2029 || c.val == 0x202F || c.val == 0x205F ||
  c.val == 0x3000 || c.val == 0xFEFF

/-- JS String.prototype.trim: strip jsWhitespace characters from both
ends (src/docsee.ts line 101, content.trim()). -/
def jsTrim (s : String) : String :=
  ⟨((s.data.dropWhile jsWhitespace).reverse.dropWhile jsWhitespace).reverse⟩

/-- The word count that src/docsee.ts lines 101-102 computes for one body:
words = content.trim().split(/\s+/); then words[0] === "" ? 0 : words.length.
On a trimmed string the regex split yields exactly the maximal runs of
non-whitespace characters, and the guard fires exactly when the trimmed
string is empty (the only way the split of a trimmed string starts with
an empty token), so the count is 0 for a blank body and otherwise the
number of maximal non-whitespace runs. -/
def countWords (content : String) : Nat :=
  let t := jsTrim content
  if t.data = [] then 0
  else ((t.data.splitOnP jsWhitespace).filter (fun tok => tok ≠ [])).length

/-- JS String.prototype.length: the number of UTF-16 code units, i.e.
code points below 0x10000 count 1 and the rest count 2
(src/docsee.ts line 100, content.length). -/
def jsLength (s : String) : Nat :=
  (s.data.map (fun c => if c.val < 0x10000 then 1 else 2)).sum

/-- The statistics walk analyzeRepository of src/docsee.ts lines 82-124,
as a function of the fetch effect f (URL to some body on success, none on
a thrown error or a non-ok response) and the record entries.

Branching follows the typeof dispatch of the source exactly:
* a string value (leaf with a non-null URL) takes the file branch,
  line 95: fileCount++ before the fetch, then on success
  totalSize += content.length and wordCount += the split count;
  on failure nothing further (the catch block only logs);
* a null value takes the folder branch, because in JS
  typeof null === "object" (line 111): folderCount++ and a recursive
  call on null, whose for...in loop iterates zero times and therefore
  returns all-zero sub-statistics — so a null leaf contributes
  exactly folderCount 1;
* a nested record takes the folder branch: folderCount++ plus the
  fieldwise addition of the recursively computed statistics
  (lines 112-119).

The per-entry contributions are merged with addA in list order, which
reproduces the sequential += accumulation of the source loop. -/
def analyzeRepository (f : String → Option String) : List (String × Val) → Analysis
  | [] => ⟨0, 0, 0, 0⟩
  | (_, .leaf (some url)) :: rest =>
    (match f url with
     | some content =>
       addA ⟨0, 1, countWords content, jsLength content⟩ (analyzeRepository f rest)
     | none => addA ⟨0, 1, 0, 0⟩ (analyzeRepository f rest))
  | (_, .leaf none) :: rest => addA ⟨1, 0, 0, 0⟩ (analyzeRepository f rest)
  | (_, .dir entries) :: rest =>
    addA (addA ⟨1, 0, 0, 0⟩ (analyzeRepository f entries)) (analyzeRepository f rest)

/-- Specification-side collector: the URLs of all Leaf entries with a
non-null content URL, at any depth, in traversal order. -/
def urlsList : List (String × Val) → List String
  | [] => []
  | (_, .leaf (some u)) :: rest => u :: urlsList rest
  | (_, .leaf none) :: rest => urlsList rest
  | (_, .dir entries) :: rest => urlsList entries ++ urlsList rest

/-- Specification-side collector: the number of Subtree nodes (nested
records), at any depth, each counted once. -/
def subtreeCount : List (String × Val) → Nat
  | [] => 0
  | (_, .leaf _) :: rest => subtreeCount rest
  | (_, .dir entries) :: rest => 1 + subtreeCount entries + subtreeCount rest

/-- Specification-side collector: the number of Leaf entries with a null
content URL, at any depth. -/
def nullLeafCount : List (String × Val) → Nat
  | [] => 0
  | (_, .leaf none) :: rest => 1 + nullLeafCount rest
  | (_, .leaf (some _)) :: rest => nullLeafCount rest
  | (_, .dir entries) :: rest => nullLeafCount entries + nullLeafCount rest

/-- The per-entry contribution of one record entry, read off from the
branches of analyzeRepository; used to state lemmas uniformly. -/
def entryA (f : String → Option String) : String × Val → Analysis
  | (_, .leaf (some url)) =>
    (match f url with
     | some content => ⟨0, 1, countWords content, jsLength content⟩
     | none => ⟨0, 1, 0, 0⟩)
  | (_, .leaf none) => ⟨1, 0, 0, 0⟩
  | (_, .dir entries) => addA ⟨1, 0, 0, 0⟩ (analyzeRepository f entries)

/-- The closed form of the statistics walk, stated from the
specification-side collectors: folders are the Subtree nodes plus the
null leaves, files are the non-null leaves, and words and size are the
per-body sums over the non-null leaves, a failed fetch contributing
zero. -/
def specStats (f : String → Option String) (l : List (String × Val)) : Analysis :=
  ⟨subtreeCount l + nullLeafCount l,
   (urlsList l).length,
   ((urlsList l).map (fun u => match f u with | some b => countWords b | none => 0)).sum,
   ((urlsList l).map (fun u => match f u with | some b => jsLength b | none => 0)).sum⟩

/-- JS String.prototype.endsWith with no end-position argument: a
case-sensitive suffix match (src/docsee.ts line 57). -/
def jsEndsWith (s suffix : String) : Bool :=
  List.isSuffixOf suffix.data s.data

/-- The markdown-name test of src/docsee.ts line 57:
item.name.endsWith(".md") || item.name.endsWith(".mdx"). -/
def isMarkdownName (name : String) : Bool :=
  jsEndsWith name ".md" || jsEndsWith name ".mdx"

/-- JS record assignment m[k] = v on a record represented as its entry
list in insertion order: if the key is already present (records built by
the traversal bind a key at most once, so the first occurrence is the
only one) its value is replaced in place, otherwise the new pair is
appended (src/docsee.ts lines 50 and 58, result[item.name] = ...). -/
def rset (m : List (String × Val)) (k : String) (v : Val) : List (String × Val) :=
  match m with
  | [] => [(k, v)]
  | (k0, v0) :: rest => if k0 = k then (k, v) :: rest else (k0, v0) :: rset rest k v

/-- JS record read m[k]: the value bound to the key, if any. -/
def rget (m : List (String × Val)) (k : String) : Option Val :=
  match m with
  | [] => none
  | (k0, v0) :: rest => if k0 = k then some v0 else rget rest k

mutual

/-- The recursive traversal traverseRepository of src/docsee.ts
lines 39-63, as a function of the listing API L (the composition of
fetchRepository with the remote service: for a path, either the list of
entries, or the error thrown on a non-ok response, lines 33-35 — the
thrown Error message is carried in the Except.error value) plus an
explicit fuel parameter that makes the unbounded recursion total.
Exhausted fuel yields a distinguished error; every theorem below either
supplies enough fuel or (for failure propagation) only derives errors
that originate in L. -/
def traverseRepository (L : String → Except String (List GitHubItem)) :
    Nat → String → Except String (List (String × Val))
  | 0, _ => .error "recursion limit exceeded"
  | fuel + 1, path =>
    match L path with
    | .error e => .error e
    | .ok items => traverseItems L fuel items []
termination_by fuel path => (fuel, 0)

/-- The body of the for loop of src/docsee.ts lines 48-61, sequentially
folding the listed items into the result record: a dir item inserts the
recursively built subtree (propagating its failure), a file item inserts
its download_url when the name matches the markdown test and is skipped
otherwise. -/
def traverseItems (L : String → Except String (List GitHubItem)) :
    Nat → List GitHubItem → List (String × Val) → Except String (List (String × Val))
  | _, [], result => .ok result
  | fuel, item :: rest, result =>
    match item.type with
    | .dir =>
      match traverseRepository L fuel item.path with
      | .error e => .error e
      | .ok sub => traverseItems L fuel rest (rset result item.name (.dir sub))
    | .file =>
      if isMarkdownName item.name then
        traverseItems L fuel rest (rset result item.name (.leaf item.download_url))
      else
        traverseItems L fuel rest result
termination_by fuel items result => (fuel, items.length + 1)

end

/-- ListingFailure L fuel path e holds when, running the traversal of
path with the given fuel, the first directory-listing query that fails
does fail, with message e: either the listing of path itself fails, or
the listing of path succeeds and some dir item fails recursively while
every dir item before it succeeds (the loop is sequential, so the first
failing query is the one that is reached). -/
inductive ListingFailure (L : String → Except String (List GitHubItem)) :
    Nat → String → String → Prop where
  | here (fuel : Nat) (path e : String) :
      L path = .error e → ListingFailure L (fuel + 1) path e
  | nested (fuel : Nat) (path e : String) (items pre post : List GitHubItem)
      (item : GitHubItem) :
      L path = .ok items →
      items = pre ++ item :: post →
      item.type = .dir →
      (∀ it ∈ pre, it.type = .dir →
        ∃ sub, traverseRepository L fuel it.path = .ok sub) →
      ListingFailure L fuel item.path e →
      ListingFailure L (fuel + 1) path e

/-- TPerm t₁ t₂ holds when t₂ is obtained from t₁ by permuting the order
of sibling entries inside any of the mappings of the tree, at any depth,
while keeping every name bound to the same (recursively permuted)
value. -/
inductive TPerm : List (String × Val) → List (String × Val) → Prop where
  | nil : TPerm [] []
  | consLeaf (k : String) (u : Option String) {t₁ t₂ : List (String × Val)} :
      TPerm t₁ t₂ → TPerm ((k, .leaf u) :: t₁) ((k, .leaf u) :: t₂)
  | consDir (k : String) {l₁ l₂ t₁ t₂ : List (String × Val)} :
      TPerm l₁ l₂ → TPerm t₁ t₂ → TPerm ((k, .dir l₁) :: t₁) ((k, .dir l₂) :: t₂)
  | swap (a b : String × Val) (t : List (String × Val)) :
      TPerm (a :: b :: t) (b :: a :: t)
  | trans {l₁ l₂ l₃ : List (String × Val)} :
      TPerm l₁ l₂ → TPerm l₂ l₃ → TPerm l₁ l₃

/-- A concrete directory listing used by witnesses: the root holds a
qualifying markdown file, a non-markdown-cased file, and one
subdirectory that itself holds only a non-markdown file. -/
def demoItems : List GitHubItem :=
  [⟨"guide.md", "guide.md", .file, some "u1"⟩,
   ⟨"readme.MD", "readme.MD", .file, some "u2"⟩,
   ⟨"docs", "docs", .dir, none⟩]

/-- A concrete listing API serving demoItems at the root. -/
def demoListing : String → Except String (List GitHubItem) :=
  fun path =>
    if path = "" then .ok demoItems
    else if path = "docs" then .ok [⟨"c.txt", "docs/c.txt", .file, some "u3"⟩]
    else .error "HTTP 404"

/-- A concrete listing API whose root listing succeeds but whose single
nested directory listing fails. -/
def failListing : String → Except String (List GitHubItem) :=
  fun path =>
    if path = "" then .ok [⟨"docs", "docs", .dir, none⟩]
    else .error "boom"

/- ------------------------------------------------------------------ -/
/- Helper lemmas                                                      -/
/- ------------------------------------------------------------------ -/

theorem addA_left_comm (a b c : Analysis) : addA a (addA b c) = addA b (addA a c) := by
  simp only [addA, Analysis.mk.injEq]
  omega

theorem addA_assoc (a b c : Analysis) : addA (addA a b) c = addA a (addA b c) := by
  simp only [addA, Analysis.mk.injEq]
  omega

theorem zero_addA (a : Analysis) : addA ⟨0, 0, 0, 0⟩ a = a := by
  simp [addA]

theorem analyzeRepository_cons (f : String → Option String) (x : String × Val)
    (rest : List (String × Val)) :
    analyzeRepository f (x :: rest) = addA (entryA f x) (analyzeRepository f rest) := by
  obtain ⟨k, v⟩ := x
  cases v with
  | leaf u =>
    cases u with
    | some url => cases h : f url <;> simp [analyzeRepository, entryA, h]
    | none => simp [analyzeRepository, entryA]
  | dir entries => simp [analyzeRepository, entryA]

theorem analyzeRepository_append (f : String → Option String)
    (l₁ l₂ : List (String × Val)) :
    analyzeRepository f (l₁ ++ l₂) =
      addA (analyzeRepository f l₁) (analyzeRepository f l₂) := by
  induction l₁ with
  | nil =>
    show analyzeRepository f l₂ = addA (analyzeRepository f []) (analyzeRepository f l₂)
    rw [show analyzeRepository f [] = ⟨0, 0, 0, 0⟩ from by simp [analyzeRepository],
      zero_addA]
  | cons x t ih =>
    rw [List.cons_append, analyzeRepository_cons, ih, analyzeRepository_cons, addA_assoc]

theorem analyze_spec (f : String → Option String) (l : List (String × Val)) :
    analyzeRepository f l = specStats f l := by
  induction l using analyzeRepository.induct f with
  | case1 => simp [analyzeRepository, specStats, urlsList, subtreeCount, nullLeafCount]
  | case2 k url rest content h ih =>
    simp only [analyzeRepository, h]
    rw [ih]
    simp only [specStats, urlsList, subtreeCount, nullLeafCount, addA, List.map_cons,
      List.sum_cons, List.length_cons, h, Analysis.mk.injEq, true_and, and_true]
    first
    | trivial
    | omega
  | case3 k url rest h ih =>
    simp only [analyzeRepository, h]
    rw [ih]
    simp only [specStats, urlsList, subtreeCount, nullLeafCount, addA, List.map_cons,
      List.sum_cons, List.length_cons, h, Analysis.mk.injEq, true_and, and_true]
    first
    | trivial
    | omega
  | case4 k rest ih =>
    simp only [analyzeRepository]
    rw [ih]
    simp only [specStats, urlsList, subtreeCount, nullLeafCount, addA, Analysis.mk.injEq,
      true_and, and_true]
    first
    | trivial
    | omega
  | case5 k entries rest ih1 ih2 =>
    simp only [analyzeRepository]
    rw [ih1, ih2]
    simp only [specStats, urlsList, subtreeCount, nullLeafCount, addA, List.map_append,
      List.sum_append, List.length_append, Analysis.mk.injEq, true_and, and_true]
    first
    | trivial
    | omega

/- ------------------------------------------------------------------ -/
/- Claims about the Statistics Aggregator                             -/
/- ------------------------------------------------------------------ -/

/-- Claim C1, counterexample. The claim says a Leaf with a null content
URL contributes zero to every field of the statistics. In the source the
typeof dispatch sends the null value into the folder branch (in JS,
typeof null evaluates to the string "object"), so the aggregate of a
tree holding exactly one null leaf is not the zero record: its
folderCount is 1. -/
theorem nullLeaf_zero_cex :
    analyzeRepository (fun _ => none) [("doc.md", Val.leaf none)] ≠
      ⟨0, 0, 0, 0⟩ := by
  simp [analyzeRepository, addA]

/-- Claim C1, amended: wherever a Leaf with a null content URL sits in a
mapping, it is counted as neither file nor word nor size, but it is
counted as a folder — removing it from the mapping lowers folderCount by
exactly one and changes nothing else. -/
theorem nullLeaf_contribution (f : String → Option String) (k : String)
    (l₁ l₂ : List (String × Val)) :
    analyzeRepository f (l₁ ++ (k, Val.leaf none) :: l₂) =
      addA ⟨1, 0, 0, 0⟩ (analyzeRepository f (l₁ ++ l₂)) := by
  rw [analyzeRepository_append, analyzeRepository_cons, analyzeRepository_append]
  simp only [entryA]
  exact addA_left_comm _ _ _

/-- Claim C2, counterexample. folderCount does not always equal the
number of Subtree nodes: a tree holding exactly one null leaf has no
Subtree at all, yet its folderCount is 1. -/
theorem folderCount_subtree_cex :
    (analyzeRepository (fun _ => none) [("a.md", Val.leaf none)]).folderCount ≠
      subtreeCount [("a.md", Val.leaf none)] := by
  simp [analyzeRepository, subtreeCount, addA]

/-- Claim C2, amended: for every repository tree and every fetch
behaviour, folderCount equals the total number of Subtree nodes at any
depth (each counted exactly once, empty ones included) plus the number
of Leaf entries with a null content URL (which the typeof dispatch of
the source also routes into the folder branch). -/
theorem folderCount_eq (f : String → Option String) (l : List (String × Val)) :
    (analyzeRepository f l).folderCount = subtreeCount l + nullLeafCount l := by
  rw [analyze_spec]
  rfl

/-- Claim C3: aggregation is total, and a Leaf whose fetch fails is
still counted in fileCount while contributing zero to wordCount and
totalSize; the remaining entries of the tree contribute exactly what
they contribute without this leaf, wherever the leaf sits. -/
theorem failedFetch_contribution (f : String → Option String) (k u : String)
    (l₁ l₂ : List (String × Val)) (h : f u = none) :
    analyzeRepository f (l₁ ++ (k, Val.leaf (some u)) :: l₂) =
      addA ⟨0, 1, 0, 0⟩ (analyzeRepository f (l₁ ++ l₂)) := by
  rw [analyzeRepository_append, analyzeRepository_cons, analyzeRepository_append]
  simp only [entryA, h]
  exact addA_left_comm _ _ _

/-- Claim C3, witness: a concrete two-file tree in which the fetch of
the second file fails. -/
theorem failedFetch_contribution_witness :
    (fun _ : String => (none : Option String)) "u" = none ∧
    analyzeRepository (fun _ => none)
        ([("b.md", Val.leaf (some "v"))] ++ ("a.md", Val.leaf (some "u")) :: []) =
      addA ⟨0, 1, 0, 0⟩
        (analyzeRepository (fun _ => none) ([("b.md", Val.leaf (some "v"))] ++ [])) :=
  ⟨rfl, failedFetch_contribution (fun _ => none) "a.md" "u" [("b.md", Val.leaf (some "v"))] [] rfl⟩

/-- Claim C4: fileCount equals the number of Leaf entries with a
non-null URL, whatever the outcomes of the fetches are. -/
theorem fileCount_eq (f : String → Option String) (l : List (String × Val)) :
    (analyzeRepository f l).fileCount = (urlsList l).length := by
  rw [analyze_spec]
  rfl

/-- Claim C5, counterexample. The claim says a successful fetch adds the
byte length of the body to the size total. The source adds
content.length, the number of UTF-16 code units, which differs from the
byte length on any non-ASCII body: for the one-character body "é" the
code adds 1 while the body occupies 2 bytes. -/
theorem totalSize_bytes_cex :
    (analyzeRepository (fun _ => some "é") [("a.md", Val.leaf (some "u"))]).totalSize ≠
      String.utf8ByteSize "é" := by
  simp only [analyzeRepository, addA]
  decide

/-- Claim C5, amended: a successful fetch adds exactly the UTF-16
code-unit length of the body (JS String.prototype.length) to totalSize,
so totalSize equals the sum of those lengths over all successfully
fetched bodies, a failed fetch contributing zero. The byte length
coincides with this only for bodies whose characters all fit in one
code unit and one byte (ASCII). -/
theorem totalSize_eq (f : String → Option String) (l : List (String × Val)) :
    (analyzeRepository f l).totalSize =
      ((urlsList l).map (fun u => match f u with | some b => jsLength b | none => 0)).sum := by
  rw [analyze_spec]
  rfl

/-- Claim C6: when every fetch succeeds, wordCount is the sum over all
fetched bodies of the number of whitespace-delimited tokens after
trimming (countWords), an all-whitespace body contributing zero. -/
theorem wordCount_of_success (f : String → Option String) (body : String → String)
    (l : List (String × Val)) (h : ∀ u ∈ urlsList l, f u = some (body u)) :
    (analyzeRepository f l).wordCount =
      ((urlsList l).map (fun u => countWords (body u))).sum := by
  rw [analyze_spec]
  show ((urlsList l).map _).sum = _
  refine congrArg List.sum (List.map_congr_left ?_)
  intro u hu
  rw [h u hu]

/-- Claim C6, witness: a two-file tree whose fetches both succeed (the
fetch returns the URL itself as the body), with a blank body
contributing zero words: the word total is 2, from "one two" alone. -/
theorem wordCount_of_success_witness :
    (analyzeRepository (fun v => some v)
        [("a.md", Val.leaf (some "one two")), ("b.md", Val.leaf (some "  "))]).wordCount =
      ((urlsList [("a.md", Val.leaf (some "one two")), ("b.md", Val.leaf (some "  "))]).map
        (fun u => countWords ((fun v => v) u))).sum ∧
    (analyzeRepository (fun v => some v)
        [("a.md", Val.leaf (some "one two")), ("b.md", Val.leaf (some "  "))]).wordCount = 2 := by
  constructor
  · exact wordCount_of_success (fun v => some v) (fun v => v) _ (fun _ _ => rfl)
  · simp only [analyzeRepository, addA]
    decide

/-- Claim C10: the aggregate statistics are invariant under permuting
the order of sibling entries inside any mapping of the tree, at any
depth, for any fixed assignment of fetch outcomes to URLs. -/
theorem analyze_perm_invariant (f : String → Option String)
    {l₁ l₂ : List (String × Val)} (h : TPerm l₁ l₂) :
    analyzeRepository f l₁ = analyzeRepository f l₂ := by
  induction h with
  | nil => rfl
  | consLeaf k u hp ih =>
    rw [analyzeRepository_cons, analyzeRepository_cons, ih]
  | consDir k hp ht ih1 ih2 =>
    rw [analyzeRepository_cons, analyzeRepository_cons, ih2]
    simp only [entryA]
    rw [ih1]
  | swap a b t =>
    rw [analyzeRepository_cons, analyzeRepository_cons, analyzeRepository_cons,
      analyzeRepository_cons]
    exact addA_left_comm _ _ _
  | trans h1 h2 ih1 ih2 => rw [ih1, ih2]

/-- Claim C10, witness: swapping the two root entries of a concrete tree
leaves the aggregate unchanged. -/
theorem analyze_perm_invariant_witness :
    TPerm [("a.md", Val.leaf (some "u")), ("docs", Val.dir [])]
        [("docs", Val.dir []), ("a.md", Val.leaf (some "u"))] ∧
    analyzeRepository (fun _ => some "hello world")
        [("a.md", Val.leaf (some "u")), ("docs", Val.dir [])] =
      analyzeRepository (fun _ => some "hello world")
        [("docs", Val.dir []), ("a.md", Val.leaf (some "u"))] :=
  ⟨TPerm.swap _ _ _,
   analyze_perm_invariant (fun _ => some "hello world") (TPerm.swap _ _ _)⟩

/- ------------------------------------------------------------------ -/
/- Lemmas about the Tree Builder                                      -/
/- ------------------------------------------------------------------ -/

theorem rget_rset_self (m : List (String × Val)) (k : String) (v : Val) :
    rget (rset m k v) k = some v := by
  induction m with
  | nil => simp [rset, rget]
  | cons e rest ih =>
    obtain ⟨k0, v0⟩ := e
    by_cases h : k0 = k
    · simp [rset, rget, h]
    · simp [rset, rget, h, ih]

theorem rget_rset_ne (m : List (String × Val)) (k : String) (v : Val) (k0 : String)
    (h : k0 ≠ k) : rget (rset m k v) k0 = rget m k0 := by
  induction m with
  | nil =>
    simp only [rset, rget]
    rw [if_neg (fun hh => h hh.symm)]
  | cons e rest ih =>
    obtain ⟨k1, v1⟩ := e
    by_cases h1 : k1 = k
    · subst h1
      simp only [rset, if_pos rfl, rget]
      rw [if_neg (fun hh => h hh.symm), if_neg (fun hh => h hh.symm)]
    · simp only [rset, if_neg h1, rget]
      by_cases h2 : k1 = k0
      · rw [if_pos h2, if_pos h2]
      · rw [if_neg h2, if_neg h2, ih]

theorem rget_traverseItems (L : String → Except String (List GitHubItem)) (fuel : Nat)
    (k : String) :
    ∀ (items : List GitHubItem) (acc r : List (String × Val)),
      (∀ it ∈ items, it.name ≠ k) →
      traverseItems L fuel items acc = .ok r →
      rget r k = rget acc k := by
  intro items
  induction items with
  | nil =>
    intro acc r _ h
    simp only [traverseItems, Except.ok.injEq] at h
    rw [h]
  | cons hd rest ih =>
    obtain ⟨hname, hpath, hty, hdl⟩ := hd
    intro acc r hk h
    have hne : hname ≠ k := hk _ (List.mem_cons_self _ _)
    have hkr : ∀ it ∈ rest, it.name ≠ k := fun it hit => hk it (List.mem_cons_of_mem _ hit)
    cases hty with
    | dir =>
      simp only [traverseItems] at h
      cases hrec : traverseRepository L fuel hpath <;> rw [hrec] at h
      · simp at h
      · exact (ih _ r hkr h).trans (rget_rset_ne acc hname _ k (Ne.symm hne))
    | file =>
      simp only [traverseItems] at h
      by_cases hmd : isMarkdownName hname
      · rw [if_pos hmd] at h
        exact (ih _ r hkr h).trans (rget_rset_ne acc hname _ k (Ne.symm hne))
      · rw [if_neg hmd] at h
        exact ih acc r hkr h

theorem traverseItems_file (L : String → Except String (List GitHubItem)) (fuel : Nat) :
    ∀ (items : List GitHubItem) (acc r : List (String × Val)),
      (items.map GitHubItem.name).Nodup →
      traverseItems L fuel items acc = .ok r →
      ∀ item ∈ items, item.type = .file →
        rget r item.name =
          (if isMarkdownName item.name then some (Val.leaf item.download_url)
           else rget acc item.name) := by
  intro items
  induction items with
  | nil =>
    intro acc r _ _ item hmem
    simp at hmem
  | cons hd rest ih =>
    obtain ⟨hname, hpath, hty, hdl⟩ := hd
    intro acc r hnd h item hmem hfile
    rw [List.map_cons] at hnd
    have hnotmem := (List.nodup_cons.mp hnd).1
    have hndr := (List.nodup_cons.mp hnd).2
    have hnotin : ∀ it ∈ rest, it.name ≠ hname := by
      intro it hit heq
      have hmm : it.name ∈ rest.map GitHubItem.name := List.mem_map_of_mem GitHubItem.name hit
      rw [heq] at hmm
      exact hnotmem hmm
    cases hty with
    | dir =>
      simp only [traverseItems] at h
      cases hrec : traverseRepository L fuel hpath <;> rw [hrec] at h
      · simp at h
      · rcases List.mem_cons.mp hmem with rfl | hmem2
        · simp at hfile
        · have hne_item : item.name ≠ hname := hnotin item hmem2
          rw [ih _ _ hndr h item hmem2 hfile, rget_rset_ne acc hname _ _ hne_item]
    | file =>
      simp only [traverseItems] at h
      by_cases hmd : isMarkdownName hname
      · rw [if_pos hmd] at h
        rcases List.mem_cons.mp hmem with rfl | hmem2
        · rw [rget_traverseItems L fuel hname rest _ r hnotin h, rget_rset_self]
          rw [if_pos hmd]
        · have hne_item : item.name ≠ hname := hnotin item hmem2
          rw [ih _ _ hndr h item hmem2 hfile, rget_rset_ne acc hname _ _ hne_item]
      · rw [if_neg hmd] at h
        rcases List.mem_cons.mp hmem with rfl | hmem2
        · rw [rget_traverseItems L fuel hname rest acc r hnotin h]
          rw [if_neg hmd]
        · exact ih _ _ hndr h item hmem2 hfile

theorem traverseItems_dir (L : String → Except String (List GitHubItem)) (fuel : Nat) :
    ∀ (items : List GitHubItem) (acc r : List (String × Val)),
      (items.map GitHubItem.name).Nodup →
      traverseItems L fuel items acc = .ok r →
      ∀ item ∈ items, item.type = .dir →
        ∃ sub, traverseRepository L fuel item.path = .ok sub ∧
          rget r item.name = some (Val.dir sub) := by
  intro items
  induction items with
  | nil =>
    intro acc r _ _ item hmem
    simp at hmem
  | cons hd rest ih =>
    obtain ⟨hname, hpath, hty, hdl⟩ := hd
    intro acc r hnd h item hmem hdir
    rw [List.map_cons] at hnd
    have hnotmem := (List.nodup_cons.mp hnd).1
    have hndr := (List.nodup_cons.mp hnd).2
    have hnotin : ∀ it ∈ rest, it.name ≠ hname := by
      intro it hit heq
      have hmm : it.name ∈ rest.map GitHubItem.name := List.mem_map_of_mem GitHubItem.name hit
      rw [heq] at hmm
      exact hnotmem hmm
    cases hty with
    | dir =>
      simp only [traverseItems] at h
      cases hrec : traverseRepository L fuel hpath <;> rw [hrec] at h
      · simp at h
      · rcases List.mem_cons.mp hmem with rfl | hmem2
        · refine ⟨_, hrec, ?_⟩
          rw [rget_traverseItems L fuel hname rest _ r hnotin h, rget_rset_self]
        · exact ih _ _ hndr h item hmem2 hdir
    | file =>
      simp only [traverseItems] at h
      by_cases hmd : isMarkdownName hname
      · rw [if_pos hmd] at h
        rcases List.mem_cons.mp hmem with rfl | hmem2
        · simp at hdir
        · obtain ⟨sub2, hsub2, hget2⟩ := ih _ _ hndr h item hmem2 hdir
          exact ⟨sub2, hsub2, hget2⟩
      · rw [if_neg hmd] at h
        rcases List.mem_cons.mp hmem with rfl | hmem2
        · simp at hdir
        · exact ih _ _ hndr h item hmem2 hdir

theorem traverseItems_ok (L : String → Except String (List GitHubItem)) (fuel : Nat) :
    ∀ (items : List GitHubItem) (acc : List (String × Val)),
      (∀ it ∈ items, it.type = .dir →
        ∃ sub, traverseRepository L fuel it.path = .ok sub) →
      ∃ r, traverseItems L fuel items acc = .ok r := by
  intro items
  induction items with
  | nil =>
    intro acc _
    exact ⟨acc, by simp [traverseItems]⟩
  | cons hd rest ih =>
    obtain ⟨hname, hpath, hty, hdl⟩ := hd
    intro acc hdirs
    have hdirs2 : ∀ it ∈ rest, it.type = .dir →
        ∃ sub, traverseRepository L fuel it.path = .ok sub :=
      fun it hit => hdirs it (List.mem_cons_of_mem _ hit)
    cases hty with
    | dir =>
      obtain ⟨sub, hsub⟩ := hdirs _ (List.mem_cons_self _ _) rfl
      obtain ⟨r, hr⟩ := ih (rset acc hname (.dir sub)) hdirs2
      refine ⟨r, ?_⟩
      simp only [traverseItems]
      rw [hsub]
      exact hr
    | file =>
      by_cases hmd : isMarkdownName hname
      · obtain ⟨r, hr⟩ := ih (rset acc hname (.leaf hdl)) hdirs2
        refine ⟨r, ?_⟩
        simp only [traverseItems]
        rw [if_pos hmd]
        exact hr
      · obtain ⟨r, hr⟩ := ih acc hdirs2
        refine ⟨r, ?_⟩
        simp only [traverseItems]
        rw [if_neg hmd]
        exact hr

theorem traverseItems_append (L : String → Except String (List GitHubItem)) (fuel : Nat) :
    ∀ (xs ys : List GitHubItem) (acc acc2 : List (String × Val)),
      traverseItems L fuel xs acc = .ok acc2 →
      traverseItems L fuel (xs ++ ys) acc = traverseItems L fuel ys acc2 := by
  intro xs
  induction xs with
  | nil =>
    intro ys acc acc2 h
    simp only [traverseItems, Except.ok.injEq] at h
    rw [List.nil_append, h]
  | cons hd rest ih =>
    obtain ⟨hname, hpath, hty, hdl⟩ := hd
    intro ys acc acc2 h
    cases hty with
    | dir =>
      simp only [traverseItems] at h
      cases hrec : traverseRepository L fuel hpath <;> rw [hrec] at h
      · simp at h
      · simp only [List.cons_append, traverseItems, hrec]
        exact ih ys _ acc2 h
    | file =>
      simp only [traverseItems] at h
      simp only [List.cons_append, traverseItems]
      by_cases hmd : isMarkdownName hname
      · rw [if_pos hmd] at h ⊢
        exact ih ys _ acc2 h
      · rw [if_neg hmd] at h ⊢
        exact ih ys acc acc2 h

/- ------------------------------------------------------------------ -/
/- Claims about the Tree Builder                                      -/
/- ------------------------------------------------------------------ -/

/-- Claim C7: in a successful traversal of a listed directory (names
pairwise distinct, as a file system guarantees), a file entry is
inserted as a Leaf holding its download URL exactly when its name ends
in .md or .mdx by case-sensitive suffix match, and any other file entry
is absent from the resulting record — omission, not an error. -/
theorem markdown_filter (L : String → Except String (List GitHubItem)) (fuel : Nat)
    (path : String) (items : List GitHubItem) (r : List (String × Val))
    (hL : L path = .ok items) (hnd : (items.map GitHubItem.name).Nodup)
    (hrun : traverseRepository L (fuel + 1) path = .ok r) :
    ∀ item ∈ items, item.type = .file →
      (rget r item.name = some (Val.leaf item.download_url) ↔
        isMarkdownName item.name = true) ∧
      (isMarkdownName item.name = false → rget r item.name = none) := by
  have hstep : traverseItems L fuel items [] = .ok r := by
    simp only [traverseRepository, hL] at hrun
    exact hrun
  intro item hmem hfile
  have hmain := traverseItems_file L fuel items [] r hnd hstep item hmem hfile
  by_cases hmd : isMarkdownName item.name = true
  · rw [if_pos hmd] at hmain
    refine ⟨⟨fun _ => hmd, fun _ => hmain⟩, fun hfalse => ?_⟩
    rw [hmd] at hfalse
    cases hfalse
  · rw [if_neg hmd] at hmain
    have hnone : rget r item.name = none := by rw [hmain]; rfl
    refine ⟨⟨fun hsome => ?_, fun htrue => absurd htrue hmd⟩, fun _ => hnone⟩
    rw [hnone] at hsome
    cases hsome

/-- Claim C7, witness: traversing demoListing inserts guide.md as a Leaf
and omits readme.MD (capitalised extension, case-sensitive mismatch). -/
theorem markdown_filter_witness :
    demoListing "" = .ok demoItems ∧
    (demoItems.map GitHubItem.name).Nodup ∧
    traverseRepository demoListing 2 "" =
      .ok [("guide.md", Val.leaf (some "u1")), ("docs", Val.dir [])] ∧
    rget [("guide.md", Val.leaf (some "u1")), ("docs", Val.dir [])] "guide.md" =
      some (Val.leaf (some "u1")) ∧
    rget [("guide.md", Val.leaf (some "u1")), ("docs", Val.dir [])] "readme.MD" = none := by
  have hL : demoListing "" = .ok demoItems := by simp [demoListing]
  have hnd : (demoItems.map GitHubItem.name).Nodup := by decide
  have hg : isMarkdownName "guide.md" = true := by decide
  have hr : isMarkdownName "readme.MD" = false := by decide
  have hc : isMarkdownName "c.txt" = false := by decide
  have hrun : traverseRepository demoListing 2 "" =
      .ok [("guide.md", Val.leaf (some "u1")), ("docs", Val.dir [])] := by
    simp [traverseRepository, traverseItems, demoListing, demoItems, rset, hg, hr, hc]
  have h1 := markdown_filter demoListing 1 "" demoItems _ hL hnd hrun
    ⟨"guide.md", "guide.md", .file, some "u1"⟩ (by simp [demoItems]) rfl
  have h2 := markdown_filter demoListing 1 "" demoItems _ hL hnd hrun
    ⟨"readme.MD", "readme.MD", .file, some "u2"⟩ (by simp [demoItems]) rfl
  exact ⟨hL, hnd, hrun, h1.1.mpr hg, h2.2 hr⟩

/-- Claim C9: in a successful traversal of a listed directory (names
pairwise distinct), every directory entry is inserted under its name,
unconditionally: the recursively built subtree — possibly empty — is
present in the resulting record as a Subtree value. -/
theorem dir_inserted (L : String → Except String (List GitHubItem)) (fuel : Nat)
    (path : String) (items : List GitHubItem) (r : List (String × Val))
    (hL : L path = .ok items) (hnd : (items.map GitHubItem.name).Nodup)
    (hrun : traverseRepository L (fuel + 1) path = .ok r) :
    ∀ item ∈ items, item.type = .dir →
      ∃ sub, traverseRepository L fuel item.path = .ok sub ∧
        rget r item.name = some (Val.dir sub) := by
  have hstep : traverseItems L fuel items [] = .ok r := by
    simp only [traverseRepository, hL] at hrun
    exact hrun
  exact traverseItems_dir L fuel items [] r hnd hstep

/-- Claim C9, witness: the docs directory of demoListing has no
qualifying descendant, yet it appears in the result as an empty
Subtree. -/
theorem dir_inserted_witness :
    demoListing "" = .ok demoItems ∧
    (demoItems.map GitHubItem.name).Nodup ∧
    traverseRepository demoListing 2 "" =
      .ok [("guide.md", Val.leaf (some "u1")), ("docs", Val.dir [])] ∧
    traverseRepository demoListing 1 "docs" = .ok [] ∧
    rget [("guide.md", Val.leaf (some "u1")), ("docs", Val.dir [])] "docs" =
      some (Val.dir []) := by
  have hL : demoListing "" = .ok demoItems := by simp [demoListing]
  have hnd : (demoItems.map GitHubItem.name).Nodup := by decide
  have hg : isMarkdownName "guide.md" = true := by decide
  have hr : isMarkdownName "readme.MD" = false := by decide
  have hc : isMarkdownName "c.txt" = false := by decide
  have hrun : traverseRepository demoListing 2 "" =
      .ok [("guide.md", Val.leaf (some "u1")), ("docs", Val.dir [])] := by
    simp [traverseRepository, traverseItems, demoListing, demoItems, rset, hg, hr, hc]
  have heval : traverseRepository demoListing 1 "docs" = .ok [] := by
    simp [traverseRepository, traverseItems, demoListing, rset, hc]
  obtain ⟨sub, hsub, hget⟩ := dir_inserted demoListing 1 "" demoItems _ hL hnd hrun
    ⟨"docs", "docs", .dir, none⟩ (by simp [demoItems]) rfl
  have hsub0 : sub = [] := by
    have hh := hsub.symm.trans heval
    exact Except.ok.inj hh
  rw [hsub0] at hget
  exact ⟨hL, hnd, hrun, heval, hget⟩

/-- Claim C8: if the first directory-listing query that the traversal
reaches and that fails yields the failure message e — whether at the
root or on any nested directory — then the whole traversal fails with
exactly that message: the failure propagates unchanged to the top-level
caller and no partial tree is returned. -/
theorem listing_failure_propagates (L : String → Except String (List GitHubItem))
    (fuel : Nat) (path e : String) (h : ListingFailure L fuel path e) :
    traverseRepository L fuel path = .error e := by
  induction h with
  | here fuel path e hL => simp [traverseRepository, hL]
  | nested fuel path e items pre post item hL hsplit hdir hpre hfail ih =>
    simp only [traverseRepository, hL]
    rw [hsplit]
    obtain ⟨acc2, hacc2⟩ := traverseItems_ok L fuel pre [] hpre
    rw [traverseItems_append L fuel pre (item :: post) [] acc2 hacc2]
    simp only [traverseItems]
    rw [hdir]
    simp [ih]

/-- Claim C8, witness: a listing whose root succeeds but whose nested
directory listing fails with "boom"; the whole traversal yields exactly
that error. -/
theorem listing_failure_propagates_witness :
    ListingFailure failListing 2 "" "boom" ∧
    traverseRepository failListing 2 "" = .error "boom" := by
  have hroot : failListing "docs" = .error "boom" := by simp [failListing]
  have htop : failListing "" = .ok [⟨"docs", "docs", .dir, none⟩] := by simp [failListing]
  have h : ListingFailure failListing 2 "" "boom" :=
    ListingFailure.nested 1 "" "boom" [⟨"docs", "docs", .dir, none⟩] [] []
      ⟨"docs", "docs", .dir, none⟩ htop rfl rfl (by simp)
      (ListingFailure.here 0 "docs" "boom" hroot)
  exact ⟨h, listing_failure_propagates failListing 2 "" "boom" h⟩
